import Mathlib

/-!
Verification of github.com/clbanning/checkxml (missingtags.go, unknowntags.go,
misc.go) against its natural-language specification.

The XML parser (github.com/clbanning/mxj) is an external collaborator: the spec
treats it as a black box producing an untyped tree.  The embedding therefore
starts from the parser's output, a one-entry `map[string]interface{}` from the
root tag to an untyped node, and models everything the package itself does with
that map: the recursive reconcilers `checkAllTags` / `checkMembers`, the entry
points `UnknownXMLTags` / `MissingXMLTags`, and the configuration setters from
misc.go.

Go's unbounded recursion is embedded as structural recursion on an explicit
depth bound (the package documents that recursive struct types are unsupported
and make the Go original diverge).  The bound `FUEL` computed from the schema
type strictly dominates the recursion depth of the Go code: every recursive
call of the Go original decreases the remaining bound by one while needing at
most `FUEL` of its own argument, so the wrappers `checkAllTags`/`checkMembers`
agree with the unbounded original on every non-recursive schema type.
-/

namespace Checkxml

/-- Untyped node of the parsed XML document, as produced by the mxj loader:
a Go `map[string]interface{}` is `obj`, a `[]interface{}` is `arr`, scalar
text is `scalar`, and a `nil` `interface{}` (e.g. a missing map key) is
`null`.  A Go map is unordered with distinct keys and `range` visits it in
a randomized order; the list underlying `obj` records one enumeration of
the map — the one the walk under scrutiny observes.  Facts that depend on
this order hold for the program only up to re-enumeration (see the
permutation and lookup-stability theorems about the walkers). -/
inductive Node where
  | null : Node
  | scalar : String → Node
  | arr : List Node → Node
  | obj : List (String × Node) → Node

mutual
/-- Reflection-level view of a Go type as consumed by `checkMembers` and
`checkAllTags`: `prim` covers every kind that is neither pointer, slice nor
struct (the argument is the reflect type name, e.g. "string"), `xmlName` is
the `encoding/xml.Name` struct type (recognized specially by both walkers),
`ptr`/`slice` are pointer and slice kinds, and `strct` carries the type name
and the declared field list in declaration order. -/
inductive RType where
  | prim : String → RType
  | xmlName : RType
  | slice : RType → RType
  | ptr : RType → RType
  | strct : String → List RField → RType
/-- One struct field: the Go field name, the raw value of the `xml` struct
tag (empty string when absent), whether the field is exported (in Go:
`PkgPath` empty), and its declared type. -/
inductive RField where
  | mk : String → String → Bool → RType → RField
end

/-- Go field name of a field descriptor. -/
def RField.fname : RField → String
  | RField.mk n _ _ _ => n

/-- Raw `xml` struct-tag value of a field descriptor. -/
def RField.xtag : RField → String
  | RField.mk _ t _ _ => t

/-- Whether the field is exported (`len(typ.Field(i).PkgPath) == 0`). -/
def RField.exported : RField → Bool
  | RField.mk _ _ e _ => e

/-- Declared type of the field. -/
def RField.ftype : RField → RType
  | RField.mk _ _ _ t => t

/-- `reflect.Indirect` applied once when the value is a pointer
(step 1 of both walkers). -/
def derefOnce : RType → RType
  | RType.ptr t => t
  | t => t

/-- `reflect.Type.Name()`: the declared type name; composite unnamed kinds
(slice, pointer) have an empty name. -/
def typeName : RType → String
  | RType.prim n => n
  | RType.xmlName => "Name"
  | RType.slice _ => ""
  | RType.ptr _ => ""
  | RType.strct n _ => n

/-- Is the type the `encoding/xml.Name` type
(`Type.Name() == "Name" && Type.PkgPath() == "encoding/xml"`)? -/
def isXmlNameT : RType → Bool
  | RType.xmlName => true
  | _ => false

/-- Is the node a `map[string]interface{}` value? -/
def Node.isObj : Node → Bool
  | Node.obj _ => true
  | _ => false

/-- Is the node a `[]interface{}` value? -/
def Node.isArr : Node → Bool
  | Node.arr _ => true
  | _ => false

/-- `strings.Split` on a single-character separator, at the character level
(every separator this package passes to `strings.Split` — `","`, `">"`,
`"."` — is a single character).  Like Go, splitting the empty string yields
one empty segment. -/
def splitOnChar (c : Char) : List Char → List (List Char)
  | [] => [[]]
  | x :: rest =>
    let r := splitOnChar c rest
    if x == c then [] :: r
    else
      match r with
      | [] => [[x]]
      | h :: t => (x :: h) :: t

/-- `strings.Split s c` for a one-character separator, on `String`. -/
def strSplit (s : String) (c : Char) : List String :=
  (splitOnChar c s.data).map (fun l => String.mk l)

/-- `tag := strings.Split(strings.Split(tagvals, ",")[0], ">")`, first entry:
the first `>`-segment of the first comma-segment of the raw tag value. -/
def tagHead (tagvals : String) : String :=
  ((strSplit ((strSplit tagvals ',').headD "") '>').headD "")

/-- The comma-separated tag options after the name (`tags[1:]`). -/
def tagOpts (tagvals : String) : List String :=
  (strSplit tagvals ',').tail

/-- Does `tags[1:]` contain the given option (the Go loops that scan for
"attr" and "omitempty")? -/
def hasOpt (tagvals : String) (opt : String) : Bool :=
  (tagOpts tagvals).contains opt

/-- Key under which `checkAllTags` files a field in its `fields` map:
an explicit tag's first segment if present, else the field name, with the
tag `"-"` first rewritten to `""` (so the field name is used), and a `"-"`
prepended for attribute fields. -/
def fieldKeyU (f : RField) : String :=
  let t0 := tagHead f.xtag
  let t1 := if t0 == "-" then "" else t0
  let base := if t1 == "" then f.fname else t1
  if hasOpt f.xtag "attr" then "-" ++ base else base

/-- A field participates in the `fields` maps exactly when it is exported and
not of type `encoding/xml.Name`. -/
def eligibleField (f : RField) : Bool :=
  f.exported && !(isXmlNameT f.ftype)

/-- Lookup in the `fields` map built by `checkAllTags`: the map is filled in
declaration order, so for duplicate resolved keys the last declared field
wins — hence the recursion prefers a match found in the tail. -/
def resolveFieldU : List RField → String → Option RField
  | [], _ => none
  | f :: rest, k =>
    match resolveFieldU rest k with
    | some r => some r
    | none => if eligibleField f && (fieldKeyU f == k) then some f else none

/-- Map-key lookup name used by `checkMembers` (`fn`): the tag's first
segment if non-empty, else the field name, with `"-"` prepended when the
field is an attribute.  Only evaluated for fields whose tag head is not
`"-"` (those are skipped outright). -/
def fieldKeyM (f : RField) : String :=
  let t0 := tagHead f.xtag
  let base := if t0 == "" then f.fname else t0
  if hasOpt f.xtag "attr" then "-" ++ base else base

/-- Go map indexing `mkeys[fn]` (keys of a Go map are unique, so first
match). -/
def mapFind : List (String × Node) → String → Option Node
  | [], _ => none
  | (k, v) :: rest, key => if k == key then some v else mapFind rest key

/-- `checkAllTags` of unknowntags.go, with the recursion depth made explicit
(first `Nat` argument) and the global `skiptags` passed as `st`.  The
accumulator `s` models the Go out-parameter `s *[]string`.  Recursive calls
into slice elements pass `RType.ptr tval` because the Go code hands the
element down as `reflect.New(tval)`, a pointer that step 1 of the callee
immediately indirects. -/
def checkAllTagsF (st : List String) : Nat → Node → RType → List String → String → List String
  | 0, _, _, s, _ => s
  | d+1, mv, typ0, s, key =>
    match derefOnce typ0 with
    | RType.slice t0 =>
      let tval := derefOnce t0
      match mv with
      | Node.arr l => l.foldl (fun acc sl => checkAllTagsF st d sl (RType.ptr tval) acc key) s
      | _ => s ++ [key]
    | RType.strct _ flds =>
      match mv with
      | Node.obj mm =>
        mm.foldl (fun acc kv =>
          let tkey := if key == "" then kv.fst else key ++ "." ++ kv.fst
          if st.contains tkey then acc
          else
            match resolveFieldU flds kv.fst with
            | none => acc ++ [tkey]
            | some f => checkAllTagsF st d kv.snd f.ftype acc tkey) s
      | _ => s ++ [key]
    | _ => s

/-- `checkMembers` of missingtags.go, depth made explicit, with the globals
`skipmembers` (`sm`, pairs of path and recorded depth) and `omitemptyOK`
(`oeOK`) passed explicitly.  A non-list node under a slice type is coerced
to the singleton list `[mv]`; a missing map key recurses on `null` (the Go
`nil` interface).  Note the structural-mismatch entry concatenates
`cmem + typ.Name()` without a separator, exactly as the source does. -/
def checkMembersF (sm : List (String × Nat)) (oeOK : Bool) : Nat → Node → RType → List String → String → List String
  | 0, _, _, s, _ => s
  | d+1, mv, typ0, s, cmem =>
    match derefOnce typ0 with
    | RType.slice t0 =>
      let tval := derefOnce t0
      let elems := match mv with
        | Node.arr l => l
        | _ => [mv]
      elems.foldl (fun acc sl => checkMembersF sm oeOK d sl (RType.ptr tval) acc cmem) s
    | RType.strct n flds =>
      match mv with
      | Node.obj mm =>
        let cmemdepth := if cmem == "" then 1 else (strSplit cmem '.').length + 1
        flds.foldl (fun acc f =>
          if !f.exported then acc
          else if isXmlNameT f.ftype then acc
          else if tagHead f.xtag == "-" then acc
          else
            let fn := fieldKeyM f
            let fpath := if cmem == "" then fn else cmem ++ "." ++ fn
            if sm.any (fun p => (p.snd == cmemdepth) && (fpath == p.fst)) then acc
            else
              let vOpt := mapFind mm fn
              let acc1 := if vOpt.isNone && (!(hasOpt f.xtag "omitempty") || !oeOK)
                then acc ++ [fpath] else acc
              checkMembersF sm oeOK d (vOpt.getD Node.null) f.ftype acc1 fpath) s
      | _ => s ++ [cmem ++ n]
    | _ => s

mutual
/-- Depth bound for the embedded recursions, computed from the schema type.
It strictly dominates the recursion depth of the Go walkers (slices consume
two levels because the element is re-wrapped in a pointer). -/
def FUEL : RType → Nat
  | RType.prim _ => 1
  | RType.xmlName => 1
  | RType.slice t => FUEL t + 2
  | RType.ptr t => FUEL t + 1
  | RType.strct _ flds => FUELs flds + 1
/-- Bound for a field list: maximum over the fields. -/
def FUELs : List RField → Nat
  | [] => 0
  | f :: rest => max (FUELf f) (FUELs rest)
/-- Bound for a single field: the bound of its type. -/
def FUELf : RField → Nat
  | RField.mk _ _ _ t => FUEL t
end

/-- `checkAllTags` at its natural depth bound. -/
def checkAllTags (st : List String) (mv : Node) (typ : RType) (s : List String) (key : String) : List String :=
  checkAllTagsF st (FUEL typ) mv typ s key

/-- `checkMembers` at its natural depth bound. -/
def checkMembers (sm : List (String × Nat)) (oeOK : Bool) (mv : Node) (typ : RType) (s : List String) (cmem : String) : List String :=
  checkMembersF sm oeOK (FUEL typ) mv typ s cmem

/-- `UnknownXMLTags`, starting from the loader's output map `m` (one entry,
root tag to value).  `for root, v = range m` captures the root tag and the
value; if the value is neither a map nor a list the function returns the
(empty) accumulated slice, the root and the error "no elements"; otherwise
it runs `checkAllTags` on `v` with an empty path and returns a `nil`
error. -/
def UnknownXMLTags (st : List String) (m : List (String × Node)) (valT : RType) : List String × String × Option String :=
  let root := (m.headD ("", Node.null)).fst
  let v := (m.headD ("", Node.null)).snd
  match v with
  | Node.obj _ => (checkAllTags st v valT [] "", root, none)
  | Node.arr _ => (checkAllTags st v valT [] "", root, none)
  | _ => ([], root, some "no elements")

/-- `MissingXMLTags`, starting from the loader's output map `m`.  The source
iterates `for _, v = range m`, discarding the key, so the returned root is
always the zero value `""`.  If the value is neither a map nor a list, the
slice `[typeName]` of the passed value's type name is returned with a `nil`
error.  If the value is a list, the type assertion `v.(map[string]interface{})`
has failed and left `vv` as the typed nil map, and `checkMembers` receives
an interface boxing that nil map: the callee's map assertion accepts it and
a nil map behaves exactly like an empty map under ranging and indexing, so
it is modelled as `Node.obj []` (every top-level field is then reported
missing). -/
def MissingXMLTags (sm : List (String × Nat)) (oeOK : Bool) (m : List (String × Node)) (valT : RType) : List String × String × Option String :=
  let v := (m.headD ("", Node.null)).snd
  match v with
  | Node.obj mm => (checkMembers sm oeOK (Node.obj mm) valT [] "", "", none)
  | Node.arr _ => (checkMembers sm oeOK (Node.obj []) valT [] "", "", none)
  | _ => ([typeName valT], "", none)

/-- `SetTagsToIgnore` of misc.go: no arguments or a leading empty string
clears the list, otherwise the arguments are copied. -/
def SetTagsToIgnore (s : List String) : List String :=
  match s with
  | [] => []
  | x :: _ => if x == "" then [] else s

/-- `SetMembersToIgnore` of misc.go: each argument is stored with the number
of its dot-segments as the recorded depth; no arguments clears the list. -/
def SetMembersToIgnore (s : List String) : List (String × Nat) :=
  match s with
  | [] => []
  | _ => s.map (fun v => (v, (strSplit v '.').length))

/-- `IgnoreOmitemptyTag` of misc.go: with no argument the flag is toggled,
otherwise it is set to the first argument. -/
def IgnoreOmitemptyTag (ok : List Bool) (cur : Bool) : Bool :=
  match ok with
  | [] => !cur
  | x :: _ => x

/-- `SetMxjCast` of misc.go, modelled as a partial state transformer on the
`mxjCast` flag: the variadic `b` is the argument list.  With a non-empty
argument list the flag becomes `b[0]`.  With an empty argument list the Go
body toggles the flag and then, lacking a `return`, still executes
`mxjCast = b[0]`, which indexes an empty slice and panics — modelled as
`none`. -/
def SetMxjCast (b : List Bool) (_cur : Bool) : Option Bool :=
  match b with
  | [] => none
  | x :: _ => some x

/-- `HasTags` of misc.go: are all `check` values present in `result`?  If
not, also return the ones that are not. -/
def HasTags (result : List String) (check : List String) : Bool × List String :=
  let missing := check.filter (fun v => !(result.contains v))
  (missing.isEmpty, missing)


/-- Is the (dereferenced) type a struct kind? -/
def isStrctB : RType → Bool
  | RType.strct _ _ => true
  | _ => false

/-- Scanner for syntactically valid dot-paths.  The mode records whether the
scan is currently inside a non-empty segment (`true`) or expects a fresh
segment to start (`false`): a dot may only occur right after a segment, and
the scan may only end inside a segment. -/
def vscan : Bool → List Char → Bool
  | b, [] => b
  | b, c :: rest => if c == '.' then (if b then vscan false rest else false) else vscan true rest

/-- A syntactically valid dot-path: non-empty, no empty segments (no leading
or trailing separator, no two adjacent separators). -/
def ValidDotPath (s : String) : Bool :=
  vscan false s.data

theorem vscan_cat (b : List Char) (hb : vscan true b = true) :
    ∀ (a : List Char) (m : Bool), vscan m a = true → vscan m (a ++ b) = true := by
  intro a
  induction a with
  | nil =>
    intro m hm
    simp only [vscan] at hm
    subst hm
    simpa using hb
  | cons c rest ih =>
    intro m hm
    simp only [vscan] at hm ⊢
    by_cases hc : (c == '.') = true
    · simp only [hc, if_true] at hm ⊢
      cases m with
      | false => simp at hm
      | true => simpa using ih false (by simpa using hm)
    · simp only [eq_false_of_ne_true hc, if_false] at hm ⊢
      exact ih true hm

theorem vscan_true_of_false (b : List Char) (hb : vscan false b = true) :
    vscan true b = true := by
  cases b with
  | nil => simp [vscan] at hb
  | cons c rest =>
    simp only [vscan] at hb ⊢
    by_cases hc : (c == '.') = true
    · simp [hc] at hb
    · simpa [eq_false_of_ne_true hc] using hb

/-- Joining two valid dot-paths with a separator yields a valid dot-path. -/
theorem valid_join (a b : String) (ha : ValidDotPath a = true) (hb : ValidDotPath b = true) :
    ValidDotPath (a ++ "." ++ b) = true := by
  have h1 : vscan true ('.' :: b.data) = true := by
    simpa [vscan] using hb
  have h2 := vscan_cat ('.' :: b.data) h1 a.data false ha
  simpa [ValidDotPath, String.data_append] using h2

/-- Concatenating a valid dot-path directly with another (the separator-free
`cmem + typ.Name()` entry) yields a valid dot-path. -/
theorem valid_cat (a b : String) (ha : ValidDotPath a = true) (hb : ValidDotPath b = true) :
    ValidDotPath (a ++ b) = true := by
  have h2 := vscan_cat b.data (vscan_true_of_false b.data hb) a.data false ha
  simpa [ValidDotPath, String.data_append] using h2

/-- Prepending the attribute marker preserves validity. -/
theorem valid_dash (b : String) (hb : ValidDotPath b = true) :
    ValidDotPath ("-" ++ b) = true := by
  have := vscan_true_of_false b.data hb
  simpa [ValidDotPath, String.data_append, vscan] using this

/-- Local well-formedness of one schema field: a valid field name and a tag
whose first segment is empty, the ignore sentinel, or itself a valid
dot-path. -/
def fieldOkB (f : RField) : Bool :=
  ValidDotPath f.fname &&
    (tagHead f.xtag == "" || tagHead f.xtag == "-" || ValidDotPath (tagHead f.xtag))

/-- Well-formedness of the schema to a given depth: struct type names are
valid dot-paths and every field that participates in reconciliation is
locally well-formed, recursively to the depth the walkers can reach. -/
def SchemaOKF : Nat → RType → Bool
  | 0, _ => true
  | d+1, typ0 =>
    match derefOnce typ0 with
    | RType.slice t0 => SchemaOKF d (RType.ptr (derefOnce t0))
    | RType.strct n flds =>
      ValidDotPath n &&
        flds.all (fun f => !(eligibleField f) || (fieldOkB f && SchemaOKF d f.ftype))
    | _ => true

/-- Well-formedness of the document to a given depth: every element or
attribute key is a valid dot-path. -/
def DocOKF : Nat → Node → Bool
  | 0, _ => true
  | d+1, mv =>
    match mv with
    | Node.arr l => l.all (fun e => DocOKF d e)
    | Node.obj mm => mm.all (fun kv => ValidDotPath kv.fst && DocOKF d kv.snd)
    | _ => true

theorem DocOKF_mono : ∀ (d : Nat) (mv : Node), DocOKF (d + 1) mv = true → DocOKF d mv = true := by
  intro d
  induction d with
  | zero => intro mv _; rfl
  | succ d ih =>
    intro mv h
    cases mv with
    | null => rfl
    | scalar v => rfl
    | arr l =>
      simp only [DocOKF, List.all_eq_true] at h ⊢
      intro e he
      exact ih e (h e he)
    | obj mm =>
      simp only [DocOKF, List.all_eq_true] at h ⊢
      intro kv hkv
      have h' := h kv hkv
      simp only [Bool.and_eq_true] at h' ⊢
      exact ⟨h'.1, ih kv.snd h'.2⟩

theorem DocOKF_null (d : Nat) : DocOKF d Node.null = true := by
  cases d with
  | zero => rfl
  | succ d => rfl

theorem resolveFieldU_mem (flds : List RField) (k : String) (f : RField)
    (h : resolveFieldU flds k = some f) : f ∈ flds ∧ eligibleField f = true := by
  induction flds with
  | nil => simp [resolveFieldU] at h
  | cons g rest ih =>
    simp only [resolveFieldU] at h
    cases hr : resolveFieldU rest k with
    | some r =>
      rw [hr] at h
      rcases ih (by rw [hr, ← h]) with ⟨h1, h2⟩
      exact ⟨List.mem_cons_of_mem g h1, h2⟩
    | none =>
      rw [hr] at h
      by_cases he : (eligibleField g && (fieldKeyU g == k)) = true
      · rw [if_pos he] at h
        have hfg : g = f := by injection h
        subst hfg
        simp only [Bool.and_eq_true] at he
        exact ⟨List.mem_cons_self g rest, he.1⟩
      · rw [if_neg he] at h
        cases h

theorem mapFind_mem (mm : List (String × Node)) (k : String) (v : Node)
    (h : mapFind mm k = some v) : (k, v) ∈ mm := by
  induction mm with
  | nil => simp [mapFind] at h
  | cons kv rest ih =>
    rcases kv with ⟨k0, v0⟩
    simp only [mapFind] at h
    by_cases hk : (k0 == k) = true
    · rw [if_pos hk] at h
      cases h
      have : k0 = k := by simpa using hk
      subst this
      exact List.mem_cons_self _ _
    · rw [if_neg hk] at h
      exact List.mem_cons_of_mem _ (ih h)

theorem FUEL_pos : ∀ t : RType, 1 ≤ FUEL t := by
  intro t
  cases t with
  | prim n => simp [FUEL]
  | xmlName => simp [FUEL]
  | slice t => simp [FUEL]
  | ptr t => simp [FUEL]
  | strct n flds => simp [FUEL]

theorem FUEL_derefOnce_le (t : RType) : FUEL (derefOnce t) ≤ FUEL t := by
  cases t with
  | prim n => exact Nat.le_refl _
  | xmlName => exact Nat.le_refl _
  | slice t => exact Nat.le_refl _
  | ptr t => simp [derefOnce, FUEL]
  | strct n flds => exact Nat.le_refl _

theorem FUELs_field : ∀ (flds : List RField) (f : RField), f ∈ flds → FUELf f ≤ FUELs flds := by
  intro flds
  induction flds with
  | nil => intro f hf; cases hf
  | cons g rest ih =>
    intro f hf
    rcases List.mem_cons.mp hf with h | h
    · subst h
      simp [FUELs, Nat.le_max_left]
    · exact Nat.le_trans (ih f h) (by simp [FUELs, Nat.le_max_right])

theorem FUELf_ftype (f : RField) : FUELf f = FUEL f.ftype := by
  cases f with
  | mk a b c t => rfl

/-- The depth bound is irrelevant beyond `FUEL`: any two sufficient bounds
give the unknown-seeking walker the same result, so the wrapper
`checkAllTags` computes what the unbounded Go recursion computes on every
non-recursive schema type. -/
theorem checkAllTagsF_stable (st : List String) :
    ∀ (d1 d2 : Nat) (mv : Node) (typ : RType) (s : List String) (key : String),
      FUEL typ ≤ d1 → FUEL typ ≤ d2 →
      checkAllTagsF st d1 mv typ s key = checkAllTagsF st d2 mv typ s key := by
  intro d1
  induction d1 with
  | zero =>
    intro d2 mv typ s key h1 _
    exact absurd (Nat.le_trans (FUEL_pos typ) h1) (by simp)
  | succ e1 ih =>
    intro d2 mv typ s key h1 h2
    cases d2 with
    | zero => exact absurd (Nat.le_trans (FUEL_pos typ) h2) (by simp)
    | succ e2 =>
      rcases htyp : derefOnce typ with p | _ | t0 | t | ⟨n, flds⟩
      · simp only [checkAllTagsF, htyp]
      · simp only [checkAllTagsF, htyp]
      · have hfd := FUEL_derefOnce_le typ
        rw [htyp] at hfd
        have hsub : FUEL (RType.ptr (derefOnce t0)) + 1 ≤ FUEL typ := by
          have h3 := FUEL_derefOnce_le t0
          simp only [FUEL] at hfd ⊢
          omega
        cases mv with
        | null => simp only [checkAllTagsF, htyp]
        | scalar v => simp only [checkAllTagsF, htyp]
        | obj mm => simp only [checkAllTagsF, htyp]
        | arr l =>
          simp only [checkAllTagsF, htyp]
          refine List.foldl_ext _ _ _ ?_
          intro acc a _
          exact ih e2 a (RType.ptr (derefOnce t0)) acc key
            (by omega) (by omega)
      · simp only [checkAllTagsF, htyp]
      · have hfd := FUEL_derefOnce_le typ
        rw [htyp] at hfd
        cases mv with
        | null => simp only [checkAllTagsF, htyp]
        | scalar v => simp only [checkAllTagsF, htyp]
        | arr l => simp only [checkAllTagsF, htyp]
        | obj mm =>
          simp only [checkAllTagsF, htyp]
          refine List.foldl_ext _ _ _ ?_
          intro acc kv _
          split
          all_goals
            split
            · rfl
            · cases hres : resolveFieldU flds kv.fst with
              | none => rfl
              | some f =>
                have hmem := (resolveFieldU_mem flds kv.fst f hres).1
                have hle : FUEL f.ftype + 1 ≤ FUEL typ := by
                  have h3 := FUELs_field flds f hmem
                  rw [FUELf_ftype] at h3
                  simp only [FUEL] at hfd
                  omega
                exact ih e2 kv.snd f.ftype acc _ (by omega) (by omega)

/-- The depth bound is irrelevant beyond `FUEL` for the missing-seeking
walker as well. -/
theorem checkMembersF_stable (sm : List (String × Nat)) (oeOK : Bool) :
    ∀ (d1 d2 : Nat) (mv : Node) (typ : RType) (s : List String) (cmem : String),
      FUEL typ ≤ d1 → FUEL typ ≤ d2 →
      checkMembersF sm oeOK d1 mv typ s cmem = checkMembersF sm oeOK d2 mv typ s cmem := by
  intro d1
  induction d1 with
  | zero =>
    intro d2 mv typ s cmem h1 _
    exact absurd (Nat.le_trans (FUEL_pos typ) h1) (by simp)
  | succ e1 ih =>
    intro d2 mv typ s cmem h1 h2
    cases d2 with
    | zero => exact absurd (Nat.le_trans (FUEL_pos typ) h2) (by simp)
    | succ e2 =>
      rcases htyp : derefOnce typ with p | _ | t0 | t | ⟨n, flds⟩
      · simp only [checkMembersF, htyp]
      · simp only [checkMembersF, htyp]
      · have hfd := FUEL_derefOnce_le typ
        rw [htyp] at hfd
        have h3 := FUEL_derefOnce_le t0
        simp only [checkMembersF, htyp]
        refine List.foldl_ext _ _ _ ?_
        intro acc a _
        refine ih e2 a (RType.ptr (derefOnce t0)) acc cmem ?_ ?_
        · simp only [FUEL] at hfd ⊢
          omega
        · simp only [FUEL] at hfd ⊢
          omega
      · simp only [checkMembersF, htyp]
      · have hfd := FUEL_derefOnce_le typ
        rw [htyp] at hfd
        cases mv with
        | null => simp only [checkMembersF, htyp]
        | scalar v => simp only [checkMembersF, htyp]
        | arr l => simp only [checkMembersF, htyp]
        | obj mm =>
          simp only [checkMembersF, htyp]
          refine List.foldl_ext _ _ _ ?_
          intro acc f hf
          have hle : FUEL f.ftype + 1 ≤ FUEL typ := by
            have h3 := FUELs_field flds f hf
            rw [FUELf_ftype] at h3
            simp only [FUEL] at hfd
            omega
          split
          · rfl
          · split
            · rfl
            · split
              · rfl
              · split
                all_goals
                  split
                  · rfl
                  · exact ih e2 _ f.ftype _ _ (by omega) (by omega)

/-- Struct `Y` with a single slice field tagged `xx`, from the
singleton-list regression test. -/
def yPropT : RType :=
  RType.strct "Y" [RField.mk "Property" "xx" true (RType.slice (RType.prim "string"))]

/-- Loader output for `<yy><xx>1</xx></yy>`: a single occurrence of `xx`
decodes as a scalar-shaped node, not a list. -/
def mSingleton : List (String × Node) :=
  [("yy", Node.obj [("xx", Node.scalar "1")])]

/-- Struct `doc1` with two string fields tagged `e1` and `e2`, from the
doc-comment example. -/
def docTwoFieldT : RType :=
  RType.strct "doc1"
    [RField.mk "E1" "e1" true (RType.prim "string"),
     RField.mk "E2" "e2" true (RType.prim "string")]

/-- Loader output for `<doc><e1>test</e1></doc>`. -/
def mDocE1 : List (String × Node) :=
  [("doc", Node.obj [("e1", Node.scalar "test")])]

/-- Nested struct `test2` with a single untagged string field `Why`. -/
def test2NestedT : RType :=
  RType.strct "test2" [RField.mk "Why" "" true (RType.prim "string")]

/-- Outer struct `test` with one field `More` of type `test2`, tagged
`more`. -/
def testMoreT : RType :=
  RType.strct "test" [RField.mk "More" "more" true test2NestedT]

/-- Loader output for `<doc><more>x</more></doc>` (the `more` element holds
scalar text where the schema declares a nested struct). -/
def mMoreScalar : List (String × Node) :=
  [("doc", Node.obj [("more", Node.scalar "x")])]

/-- C1: the missing-seeking direction coerces a scalar-shaped singleton into
a one-element list and reports nothing, but the unknown-seeking direction
requires a `[]interface{}` and records the element's path as unknown: for
`<yy><xx>1</xx></yy>` against struct `Y` with field `Property []string`
tagged `xx`, `UnknownXMLTags` returns `["xx"]` — contradicting the claim
and the package's own regression test `TestUnknownTagsSingletonList`, which
demands no unknown tags here. -/
theorem c1_singleton_slice_eval :
    UnknownXMLTags [] mSingleton yPropT = (["xx"], "yy", none) ∧
      MissingXMLTags [] true mSingleton yPropT = ([], "", none) := by
  decide

/-- C2: for `<doc><e1>test</e1></doc>` against the two-field struct,
`MissingXMLTags` returns the result `["e2"]` and a nil error as claimed, but
the root it returns is `""`, not `"doc"`: the source iterates
`for _, v = range m`, discarding the root key, although its documentation
promises the scanned root tag. -/
theorem c2_concrete_missing :
    MissingXMLTags [] true mDocE1 docTwoFieldT = (["e2"], "", none) := by
  decide

/-- C3 counterexample: with `<doc><more>x</more></doc>` against `testMoreT`
the recorded entry is `"moretest2"` — path and type name concatenated with
no dot separator — not the `"more.test2"` the claim requires. -/
theorem c3_counterexample :
    MissingXMLTags [] true mMoreScalar testMoreT = (["moretest2"], "", none) ∧
      "more.test2" ∉ (MissingXMLTags [] true mMoreScalar testMoreT).1 := by
  decide

/-- C3 amended: when the node is not a mapping and the schema expects a
struct, the missing-seeking walker records exactly one entry, the current
path directly concatenated with the declared struct type's name (no dot
separator; at the root level the path is empty so this is the type name
alone), and stops walking that branch. -/
theorem c3_mismatch_entry (sm : List (String × Nat)) (oeOK : Bool) (d : Nat)
    (mv : Node) (n : String) (flds : List RField) (s : List String) (cmem : String)
    (h : mv.isObj = false) :
    checkMembersF sm oeOK (d + 1) mv (RType.strct n flds) s cmem = s ++ [cmem ++ n] := by
  cases mv with
  | null => rfl
  | scalar v => rfl
  | arr l => rfl
  | obj mm => simp [Node.isObj] at h

/-- Witness for the C3 amended theorem at a concrete input. -/
theorem c3_mismatch_entry_witness :
    checkMembersF [] true 1 (Node.scalar "x") (RType.strct "T" []) ["q"] "p" = ["q", "pT"] := by
  have h := c3_mismatch_entry [] true 0 (Node.scalar "x") "T" [] ["q"] "p" (by decide)
  simpa using h

/-- C4 counterexample: `<doc><e1>test</e1></doc>` checked against a slice
type makes `UnknownXMLTags` record the entry `""` (the empty path), which is
not a valid dot-path and resolves to nothing. -/
theorem c4_counterexample :
    UnknownXMLTags [] mDocE1 (RType.slice (RType.prim "int")) = ([""], "doc", none) ∧
      ValidDotPath "" = false := by
  decide

/-- C7 counterexample: for the scalar-rooted document `<doc>text</doc>` the
missing-seeking entry point returns a nil error (recording the struct type
name as data instead), and the unknown-seeking entry point returns the
parsed root `"doc"`, not an empty root name. -/
theorem c7_counterexample :
    (MissingXMLTags [] true [("doc", Node.scalar "text")] docTwoFieldT).2.2 = none ∧
      (UnknownXMLTags [] [("doc", Node.scalar "text")] docTwoFieldT).2.1 = "doc" := by
  decide

/-- C7 amended: when the root value is neither a mapping nor a sequence,
only the unknown-seeking entry point surfaces the distinct "no elements"
error, alongside the parsed (non-empty) root name; the missing-seeking entry
point instead returns a nil error and records the struct type's name as the
single result entry.  When the root value is a mapping or a sequence,
neither entry point surfaces any error — so "no elements" is the only error
the reconciliation stage itself can produce beyond parse failures. -/
theorem c7_no_elements (st : List String) (sm : List (String × Nat)) (oeOK : Bool)
    (root : String) (v : Node) (valT : RType)
    (h1 : v.isObj = false) (h2 : v.isArr = false) :
    UnknownXMLTags st [(root, v)] valT = ([], root, some "no elements") ∧
      MissingXMLTags sm oeOK [(root, v)] valT = ([typeName valT], "", none) ∧
      (∀ v2 : Node, v2.isObj = true ∨ v2.isArr = true →
        (UnknownXMLTags st [(root, v2)] valT).2.2 = none ∧
          (MissingXMLTags sm oeOK [(root, v2)] valT).2.2 = none) := by
  refine ⟨?_, ?_, ?_⟩
  · cases v with
    | null => rfl
    | scalar w => rfl
    | arr l => simp [Node.isArr] at h2
    | obj mm => simp [Node.isObj] at h1
  · cases v with
    | null => rfl
    | scalar w => rfl
    | arr l => simp [Node.isArr] at h2
    | obj mm => simp [Node.isObj] at h1
  · intro v2 hv2
    cases v2 with
    | null => simp [Node.isObj, Node.isArr] at hv2
    | scalar w => simp [Node.isObj, Node.isArr] at hv2
    | arr l => exact ⟨rfl, rfl⟩
    | obj mm => exact ⟨rfl, rfl⟩

/-- Witness for the C7 amended theorem at a concrete input. -/
theorem c7_no_elements_witness :
    UnknownXMLTags [] [("doc", Node.scalar "text")] docTwoFieldT = ([], "doc", some "no elements") ∧
      MissingXMLTags [] true [("doc", Node.scalar "text")] docTwoFieldT = (["doc1"], "", none) := by
  have h := c7_no_elements [] [] true "doc" (Node.scalar "text") docTwoFieldT (by decide) (by decide)
  exact ⟨h.1, h.2.1⟩

/-- C8 counterexample: a sequence-shaped root value against a struct schema
makes `UnknownXMLTags` record the empty current path `""`, not the root name
`"doc"` the claim promises for the root level. -/
theorem c8_counterexample :
    UnknownXMLTags [] [("doc", Node.arr [])] docTwoFieldT = ([""], "doc", none) ∧
      "doc" ∉ (UnknownXMLTags [] [("doc", Node.arr [])] docTwoFieldT).1 := by
  decide

/-- C8 amended: when the node is not a mapping and the schema expects a
struct, the unknown-seeking walker records exactly the current path string —
which is the empty string at the root level, the root name is not
substituted — and emits no further entries for that node. -/
theorem c8_mismatch_entry (st : List String) (d : Nat) (mv : Node)
    (n : String) (flds : List RField) (s : List String) (key : String)
    (h : mv.isObj = false) :
    checkAllTagsF st (d + 1) mv (RType.strct n flds) s key = s ++ [key] := by
  cases mv with
  | null => rfl
  | scalar v => rfl
  | arr l => rfl
  | obj mm => simp [Node.isObj] at h

/-- Witness for the C8 amended theorem at a concrete input. -/
theorem c8_mismatch_entry_witness :
    checkAllTagsF [] 1 (Node.arr []) (RType.strct "T" []) ["q"] "p" = ["q", "p"] := by
  have h := c8_mismatch_entry [] 0 (Node.arr []) "T" [] ["q"] "p" (by decide)
  simpa using h

/-- C10: `SetMxjCast` called with an explicit boolean argument sets the flag
to that argument, but called with no arguments it panics (the body toggles
the flag and then, lacking a `return`, indexes `b[0]` on the empty variadic
slice) instead of toggling and returning normally as its documentation and
the claim state. -/
theorem c10_setMxjCast_eval :
    SetMxjCast [] true = none ∧ SetMxjCast [] false = none ∧
      SetMxjCast [true] false = some true ∧ SetMxjCast [false] true = some false := by
  decide

/-- C5: (a) in the unknown-seeking direction a field whose xml tag is the
ignore sentinel "-" is entered in the `fields` map under its declared field
name, so a document key equal to that name is matched and — the field being
scalar — contributes no entry at all; (b) the same with the "-" attribute
marker prepended when the field is also tagged `attr`; (c) in the
missing-seeking direction a field whose tag head is "-" is skipped before
any lookup, leaving the walk exactly as if the field were absent from the
struct. -/
theorem c5_ignore_sentinel :
    (∀ (st : List String) (d : Nat) (n N p : String) (v : Node) (s : List String)
        (key : String),
      checkAllTagsF st (d + 1) (Node.obj [(N, v)])
        (RType.strct n [RField.mk N "-" true (RType.prim p)]) s key = s) ∧
    (∀ (st : List String) (d : Nat) (n N p : String) (v : Node) (s : List String)
        (key : String),
      checkAllTagsF st (d + 1) (Node.obj [("-" ++ N, v)])
        (RType.strct n [RField.mk N "-,attr" true (RType.prim p)]) s key = s) ∧
    (∀ (sm : List (String × Nat)) (oeOK : Bool) (d : Nat) (mv : Node) (n : String)
        (fld : RField) (flds : List RField) (s : List String) (cmem : String),
      tagHead fld.xtag = "-" →
      checkMembersF sm oeOK (d + 1) mv (RType.strct n (fld :: flds)) s cmem
        = checkMembersF sm oeOK (d + 1) mv (RType.strct n flds) s cmem) := by
  refine ⟨?_, ?_, ?_⟩
  · intro st d n N p v s key
    have hresolve : resolveFieldU [RField.mk N "-" true (RType.prim p)] N
        = some (RField.mk N "-" true (RType.prim p)) := by
      simp [resolveFieldU, eligibleField, fieldKeyU, tagHead, hasOpt, tagOpts,
        strSplit, splitOnChar, RField.exported, RField.ftype, RField.xtag,
        RField.fname, isXmlNameT]
    have hrec : ∀ (acc : List String) (tkey : String),
        checkAllTagsF st d v (RType.prim p) acc tkey = acc := by
      intro acc tkey
      cases d with
      | zero => rfl
      | succ e => rfl
    simp only [checkAllTagsF, derefOnce, List.foldl_cons, List.foldl_nil]
    split
    all_goals
      split
      · rfl
      · rw [hresolve]
        exact hrec s _
  · intro st d n N p v s key
    have hresolve : resolveFieldU [RField.mk N "-,attr" true (RType.prim p)] ("-" ++ N)
        = some (RField.mk N "-,attr" true (RType.prim p)) := by
      simp [resolveFieldU, eligibleField, fieldKeyU, tagHead, hasOpt, tagOpts,
        strSplit, splitOnChar, RField.exported, RField.ftype, RField.xtag,
        RField.fname, isXmlNameT]
    have hrec : ∀ (acc : List String) (tkey : String),
        checkAllTagsF st d v (RType.prim p) acc tkey = acc := by
      intro acc tkey
      cases d with
      | zero => rfl
      | succ e => rfl
    simp only [checkAllTagsF, derefOnce, List.foldl_cons, List.foldl_nil]
    split
    all_goals
      split
      · rfl
      · rw [hresolve]
        exact hrec s _
  · intro sm oeOK d mv n fld flds s cmem h
    cases mv with
    | null => rfl
    | scalar v => rfl
    | arr l => rfl
    | obj mm =>
      simp only [checkMembersF, derefOnce]
      rw [List.foldl_cons]
      congr 1
      by_cases h1 : (!fld.exported) = true
      · simp [h1]
      · by_cases h2 : isXmlNameT fld.ftype = true
        · simp [h1, h2]
        · simp [h1, h2, h]

/-- Witness for C5 at concrete inputs: a document key matching the declared
name of a sentinel-tagged scalar field (plain and attribute variants)
contributes nothing unknown, and removing a sentinel-tagged field does not
change the missing-direction result. -/
theorem c5_ignore_sentinel_witness :
    checkAllTagsF [] 2 (Node.obj [("Maybe", Node.scalar "true")])
        (RType.strct "test2" [RField.mk "Maybe" "-" true (RType.prim "bool")]) [] "Why" = [] ∧
      checkAllTagsF [] 2 (Node.obj [("-Maybe", Node.scalar "true")])
        (RType.strct "test2" [RField.mk "Maybe" "-,attr" true (RType.prim "bool")]) [] "Why" = [] ∧
      checkMembersF [] true 2 (Node.obj [("ok", Node.scalar "true")])
        (RType.strct "test"
          [RField.mk "Maybe" "-" true (RType.prim "bool"),
           RField.mk "Ok" "ok" true (RType.prim "bool")]) [] ""
        = checkMembersF [] true 2 (Node.obj [("ok", Node.scalar "true")])
            (RType.strct "test" [RField.mk "Ok" "ok" true (RType.prim "bool")]) [] "" := by
  refine ⟨?_, ?_, ?_⟩
  · exact c5_ignore_sentinel.1 [] 1 "test2" "Maybe" "bool" (Node.scalar "true") [] "Why"
  · exact c5_ignore_sentinel.2.1 [] 1 "test2" "Maybe" "bool" (Node.scalar "true") [] "Why"
  · exact c5_ignore_sentinel.2.2 [] true 1 (Node.obj [("ok", Node.scalar "true")]) "test"
      (RField.mk "Maybe" "-" true (RType.prim "bool"))
      [RField.mk "Ok" "ok" true (RType.prim "bool")] [] "" (by decide)

theorem any_map_split (f : String → String × Nat) (p : String × Nat → Bool) :
    ∀ l : List String, ((l.map f).any p) = l.any (fun v => p (f v)) := by
  intro l
  induction l with
  | nil => rfl
  | cons a t ih =>
    rw [List.map_cons, List.any_cons, List.any_cons, ih]

theorem setMembers_any (igns : List String) (dep : Nat) (path : String) :
    (SetMembersToIgnore igns).any (fun pr => (pr.snd == dep) && (path == pr.fst))
      = igns.any (fun v => ((strSplit v '.').length == dep) && (path == v)) := by
  cases igns with
  | nil => rfl
  | cons a t =>
    rw [show SetMembersToIgnore (a :: t)
        = (a :: t).map (fun v => (v, (strSplit v '.').length)) from rfl]
    rw [any_map_split]

/-- C6: in the missing-seeking direction, a field is excluded by the ignore
configuration exactly when some configured entry equals the field's full
dot-path and, simultaneously, the entry's recorded depth (its dot-segment
count, stored by `SetMembersToIgnore`) equals the current depth — one for
the root level, otherwise the parent path's dot-segment count plus one.
An entry whose text matches at a different depth does not exclude the
field: it is then reported missing as usual. -/
theorem c6_ignore_depth (igns : List String) (oeOK : Bool) (d : Nat)
    (n N tg p cmem fn fpath : String) (cdepth : Nat) (mm : List (String × Node))
    (htag : (tagHead tg == "-") = false)
    (homit : hasOpt tg "omitempty" = false)
    (hfn : fn = fieldKeyM (RField.mk N tg true (RType.prim p)))
    (habsent : mapFind mm fn = none)
    (hfpath : fpath = (if cmem == "" then fn else cmem ++ "." ++ fn))
    (hdepth : cdepth = (if cmem == "" then 1 else (strSplit cmem '.').length + 1)) :
    checkMembersF (SetMembersToIgnore igns) oeOK (d + 1) (Node.obj mm)
        (RType.strct n [RField.mk N tg true (RType.prim p)]) [] cmem
      = (if igns.any (fun v => ((strSplit v '.').length == cdepth) && (fpath == v)) then []
         else [fpath]) := by
  subst hfn
  subst hfpath
  subst hdepth
  have hrec : ∀ (acc : List String) (pth : String),
      checkMembersF (SetMembersToIgnore igns) oeOK d Node.null (RType.prim p) acc pth = acc := by
    intro acc pth
    cases d with
    | zero => rfl
    | succ e => rfl
  by_cases hc : (igns.any (fun v =>
      ((strSplit v '.').length == (if cmem == "" then 1 else (strSplit cmem '.').length + 1)) &&
        ((if cmem == "" then fieldKeyM (RField.mk N tg true (RType.prim p))
          else cmem ++ "." ++ fieldKeyM (RField.mk N tg true (RType.prim p))) == v))) = true
  · rw [if_pos hc]
    simp only [checkMembersF, derefOnce, List.foldl_cons, List.foldl_nil,
      RField.exported, RField.xtag, RField.ftype, RField.fname, isXmlNameT,
      Bool.not_true, if_false, Bool.false_eq_true]
    rw [setMembers_any, htag]
    simp only [Bool.false_eq_true, if_false]
    rw [hc]
    exact if_pos rfl
  · have hc' := eq_false_of_ne_true hc
    rw [if_neg hc]
    simp only [checkMembersF, derefOnce, List.foldl_cons, List.foldl_nil,
      RField.exported, RField.xtag, RField.ftype, RField.fname, isXmlNameT,
      Bool.not_true, if_false, Bool.false_eq_true]
    rw [setMembers_any, htag]
    simp only [Bool.false_eq_true, if_false]
    rw [hc']
    simp only [Bool.false_eq_true, if_false]
    rw [habsent]
    simp only [Option.isNone_none, homit, Bool.not_false, Bool.true_or,
      Bool.and_self, if_true, Option.getD_none]
    rw [hrec]
    simp

/-- Witness for C6: the spec's scenario — an ignore entry `"why"` for an
absent field tagged `why` at the root level suppresses the report — and the
depth guard: an entry `"a.b"` textually equal to the full path of a field
whose tag is the multi-segment `"a.b"` at root level (current depth 1, entry
depth 2) does not suppress the report. -/
theorem c6_ignore_depth_witness :
    checkMembersF (SetMembersToIgnore ["why"]) true 1 (Node.obj [])
        (RType.strct "test" [RField.mk "Why" "why" true (RType.prim "string")]) [] "" = [] ∧
      checkMembersF (SetMembersToIgnore ["a.b"]) true 1 (Node.obj [])
        (RType.strct "test" [RField.mk "F" "a.b" true (RType.prim "string")]) [] "" = ["a.b"] := by
  constructor
  · have h := c6_ignore_depth ["why"] true 0 "test" "Why" "why" "string" "" "why" "why" 1 []
      rfl rfl rfl rfl rfl rfl
    simpa using h
  · have h := c6_ignore_depth ["a.b"] true 0 "test" "F" "a.b" "string" "" "a.b" "a.b" 1 []
      rfl rfl rfl rfl rfl rfl
    simpa using h

theorem foldl_emit {α : Type} (g : List String → α → List String)
    (h : ∀ (s : List String) (a : α), g s a = s ++ g [] a) :
    ∀ (l : List α) (s : List String), l.foldl g s = s ++ l.foldl g [] := by
  intro l
  induction l with
  | nil => intro s; simp
  | cons a t ih =>
    intro s
    rw [List.foldl_cons, List.foldl_cons, ih (g s a), h s a, ih (g [] a), List.append_assoc]

/-- The unknown-seeking walker only appends to the accumulated slice: its
result is the incoming accumulator followed by a contribution that does not
depend on that accumulator. -/
theorem checkAllTagsF_append (st : List String) :
    ∀ (d : Nat) (mv : Node) (typ : RType) (s : List String) (key : String),
      checkAllTagsF st d mv typ s key = s ++ checkAllTagsF st d mv typ [] key := by
  intro d
  induction d with
  | zero => intro mv typ s key; simp [checkAllTagsF]
  | succ d ih =>
    intro mv typ s key
    rcases htyp : derefOnce typ with p | _ | t0 | t | ⟨n, flds⟩
    · simp [checkAllTagsF, htyp]
    · simp [checkAllTagsF, htyp]
    · simp only [checkAllTagsF, htyp]
      cases mv with
      | null => simp
      | scalar v => simp
      | obj mm => simp
      | arr l =>
        exact foldl_emit _ (fun s' a => ih a (RType.ptr (derefOnce t0)) s' key) l s
    · simp [checkAllTagsF, htyp]
    · simp only [checkAllTagsF, htyp]
      cases mv with
      | null => simp
      | scalar v => simp
      | arr l => simp
      | obj mm =>
        refine foldl_emit _ ?_ mm s
        intro s' kv
        split
        all_goals
          split
          · simp
          · cases hres : resolveFieldU flds kv.fst with
            | none => simp
            | some f => simpa using ih kv.snd f.ftype s' _

/-- The missing-seeking walker only appends to the accumulated slice. -/
theorem checkMembersF_append (sm : List (String × Nat)) (oeOK : Bool) :
    ∀ (d : Nat) (mv : Node) (typ : RType) (s : List String) (cmem : String),
      checkMembersF sm oeOK d mv typ s cmem = s ++ checkMembersF sm oeOK d mv typ [] cmem := by
  intro d
  induction d with
  | zero => intro mv typ s cmem; simp [checkMembersF]
  | succ d ih =>
    intro mv typ s cmem
    rcases htyp : derefOnce typ with p | _ | t0 | t | ⟨n, flds⟩
    · simp [checkMembersF, htyp]
    · simp [checkMembersF, htyp]
    · simp only [checkMembersF, htyp]
      exact foldl_emit _ (fun s' a => ih a (RType.ptr (derefOnce t0)) s' cmem) _ s
    · simp [checkMembersF, htyp]
    · simp only [checkMembersF, htyp]
      cases mv with
      | null => simp
      | scalar v => simp
      | arr l => simp
      | obj mm =>
        refine foldl_emit _ ?_ flds s
        intro s' f
        have key : ∀ (v : Node) (t : RType) (b : Bool) (x : String) (pth : String),
            checkMembersF sm oeOK d v t (if b = true then s' ++ [x] else s') pth
              = s' ++ checkMembersF sm oeOK d v t (if b = true then [] ++ [x] else []) pth := by
          intro v t b x pth
          cases b with
          | false =>
            simp only [Bool.false_eq_true, if_false]
            exact ih v t s' pth
          | true =>
            rw [if_pos rfl, if_pos rfl]
            rw [ih v t (s' ++ [x]) pth, ih v t ([] ++ [x]) pth]
            simp [List.append_assoc]
        split
        · simp
        · split
          · simp
          · split
            · simp
            · split
              all_goals
                split
                · simp
                · exact key _ _ _ _ _

theorem foldl_emit_flatMap {α : Type} (g : List String → α → List String)
    (h : ∀ (s : List String) (a : α), g s a = s ++ g [] a) :
    ∀ l : List α, l.foldl g [] = l.flatMap (fun a => g [] a) := by
  intro l
  induction l with
  | nil => rfl
  | cons a t ih =>
    rw [List.foldl_cons, foldl_emit g h t (g [] a), ih, List.flatMap_cons]

theorem foldl_perm {α : Type} (g : List String → α → List String)
    (h : ∀ (s : List String) (a : α), g s a = s ++ g [] a)
    {l l' : List α} (hp : l.Perm l') : (l.foldl g []).Perm (l'.foldl g []) := by
  rw [foldl_emit_flatMap g h l, foldl_emit_flatMap g h l']
  exact hp.flatMap_right _

/-- Go map indexing does not depend on the enumeration order: on two
enumerations of the same map (same pairs, distinct keys), `mapFind` agrees
on every key. -/
theorem mapFind_perm : ∀ {mm mm' : List (String × Node)}, mm.Perm mm' →
    ((mm.map Prod.fst).Nodup) → ∀ k, mapFind mm k = mapFind mm' k := by
  intro mm mm' h
  induction h with
  | nil =>
    intro _ k
    rfl
  | cons x _ ih =>
    intro hnd k
    obtain ⟨k0, v0⟩ := x
    simp only [mapFind]
    by_cases hk : (k0 == k) = true
    · rw [if_pos hk, if_pos hk]
    · rw [if_neg hk, if_neg hk]
      refine ih ?_ k
      simp only [List.map_cons] at hnd
      exact (List.nodup_cons.mp hnd).2
  | swap x y l =>
    intro hnd k
    obtain ⟨kx, vx⟩ := x
    obtain ⟨ky, vy⟩ := y
    have hne : ky ≠ kx := by
      simp only [List.map_cons, List.nodup_cons, List.mem_cons] at hnd
      intro hh
      exact hnd.1 (Or.inl hh)
    simp only [mapFind]
    by_cases h1 : (ky == k) = true
    · have h2 : (kx == k) = false := by
        have hky : ky = k := by simpa using h1
        subst hky
        have : kx ≠ ky := fun hh => hne hh.symm
        simpa using this
      rw [if_pos h1, if_neg (by simp [h2]), if_pos h1]
    · by_cases h2 : (kx == k) = true
      · rw [if_neg h1, if_pos h2, if_pos h2]
      · rw [if_neg h1, if_neg h2, if_neg h2, if_neg h1]
  | trans h1 _ ih1 ih2 =>
    intro hnd k
    refine (ih1 hnd k).trans (ih2 ?_ k)
    exact ((h1.map Prod.fst).nodup_iff).mp hnd

/-- C9 counterexample: the result order of the unknown-seeking direction
depends on the enumeration order of the document mapping.  The two `obj`
lists below are enumerations of the same Go `map[string]interface{}` (the
same two pairs, distinct keys); Go's `for k, m := range mm` visits a map in
a randomized order, so two calls of `UnknownXMLTags` on the same bytes may
observe either enumeration — and they return `["a", "b"]` and `["b", "a"]`,
which are not identical element for element.  The claim's
identical-order guarantee therefore fails for the unknown direction. -/
theorem c9_counterexample :
    (UnknownXMLTags []
        [("doc", Node.obj [("a", Node.scalar "1"), ("b", Node.scalar "2")])]
        (RType.strct "t" [])).1 = ["a", "b"] ∧
      (UnknownXMLTags []
        [("doc", Node.obj [("b", Node.scalar "2"), ("a", Node.scalar "1")])]
        (RType.strct "t" [])).1 = ["b", "a"] ∧
      (["a", "b"] : List String) ≠ ["b", "a"] := by
  decide

/-- C9 amended: both walkers are pure accumulator transformers — a call's
entire effect on the result slice is to append a contribution that is a
function of (document node, schema type, path, configuration) alone, never
mutating or reordering what was already accumulated (parts 1 and 2); the
missing-seeking walker consults the document mapping only through key
lookups, so its result — ordered by field declaration — is unchanged under
re-enumerating the mapping (part 3, for the distinct keys a Go map
guarantees), and repeated `MissingXMLTags` calls return identical
sequences; the unknown-seeking walker emits entries in the mapping's
enumeration order, which Go randomizes per call, so across calls its
result is guaranteed only up to permutation: re-enumerating the mapping
permutes the result sequence, preserving its multiset of entries but not
their order (part 4). -/
theorem c9_order_determinism :
    (∀ (st : List String) (d : Nat) (mv : Node) (typ : RType) (s : List String) (key : String),
        checkAllTagsF st d mv typ s key = s ++ checkAllTagsF st d mv typ [] key) ∧
    (∀ (sm : List (String × Nat)) (oe : Bool) (d : Nat) (mv : Node) (typ : RType)
        (s : List String) (cmem : String),
        checkMembersF sm oe d mv typ s cmem = s ++ checkMembersF sm oe d mv typ [] cmem) ∧
    (∀ (sm : List (String × Nat)) (oe : Bool) (d : Nat) (n : String) (flds : List RField)
        (s : List String) (cmem : String) (mm mm' : List (String × Node)),
        mm.Perm mm' → (mm.map Prod.fst).Nodup →
        checkMembersF sm oe (d + 1) (Node.obj mm) (RType.strct n flds) s cmem
          = checkMembersF sm oe (d + 1) (Node.obj mm') (RType.strct n flds) s cmem) ∧
    (∀ (st : List String) (d : Nat) (n : String) (flds : List RField) (key : String)
        (mm mm' : List (String × Node)),
        mm.Perm mm' →
        (checkAllTagsF st (d + 1) (Node.obj mm) (RType.strct n flds) [] key).Perm
          (checkAllTagsF st (d + 1) (Node.obj mm') (RType.strct n flds) [] key)) := by
  refine ⟨?_, ?_, ?_, ?_⟩
  · intro st d mv typ s key
    exact checkAllTagsF_append st d mv typ s key
  · intro sm oe d mv typ s cmem
    exact checkMembersF_append sm oe d mv typ s cmem
  · intro sm oe d n flds s cmem mm mm' hperm hnd
    have hfind := mapFind_perm hperm hnd
    simp only [checkMembersF, derefOnce]
    refine List.foldl_ext _ _ _ ?_
    intro acc f _
    rw [hfind (fieldKeyM f)]
  · intro st d n flds key mm mm' hperm
    simp only [checkAllTagsF, derefOnce]
    refine foldl_perm _ ?_ hperm
    intro s' kv
    split
    all_goals
      split
      · simp
      · cases resolveFieldU flds kv.fst with
        | none => simp
        | some f => exact checkAllTagsF_append st d kv.snd f.ftype s' _

/-- Witness for the C9 amended theorem at concrete inputs: append-only at a
non-empty accumulator, missing-direction invariance under swapping the two
entries of the doc-comment example's mapping, and the unknown-direction
permutation for the two enumerations of the counterexample's mapping. -/
theorem c9_order_determinism_witness :
    checkAllTagsF [] 2 (Node.obj [("q", Node.scalar "1")]) (RType.strct "t" []) ["w"] ""
        = ["w"] ++ checkAllTagsF [] 2 (Node.obj [("q", Node.scalar "1")]) (RType.strct "t" []) [] "" ∧
      checkMembersF [] true 2 (Node.obj []) docTwoFieldT ["w"] ""
        = ["w"] ++ checkMembersF [] true 2 (Node.obj []) docTwoFieldT [] "" ∧
      checkMembersF [] true 2
          (Node.obj [("e1", Node.scalar "x"), ("e2", Node.scalar "y")]) docTwoFieldT [] ""
        = checkMembersF [] true 2
            (Node.obj [("e2", Node.scalar "y"), ("e1", Node.scalar "x")]) docTwoFieldT [] "" ∧
      (checkAllTagsF [] 1
          (Node.obj [("a", Node.scalar "1"), ("b", Node.scalar "2")])
          (RType.strct "t" []) [] "").Perm
        (checkAllTagsF [] 1
          (Node.obj [("b", Node.scalar "2"), ("a", Node.scalar "1")])
          (RType.strct "t" []) [] "") := by
  refine ⟨?_, ?_, ?_, ?_⟩
  · exact c9_order_determinism.1 [] 2 (Node.obj [("q", Node.scalar "1")])
      (RType.strct "t" []) ["w"] ""
  · exact c9_order_determinism.2.1 [] true 2 (Node.obj []) docTwoFieldT ["w"] ""
  · exact c9_order_determinism.2.2.1 [] true 1 "doc1"
      [RField.mk "E1" "e1" true (RType.prim "string"),
       RField.mk "E2" "e2" true (RType.prim "string")] [] ""
      [("e1", Node.scalar "x"), ("e2", Node.scalar "y")]
      [("e2", Node.scalar "y"), ("e1", Node.scalar "x")]
      (List.Perm.swap ("e2", Node.scalar "y") ("e1", Node.scalar "x") []) (by decide)
  · exact c9_order_determinism.2.2.2 [] 0 "t" [] ""
      [("a", Node.scalar "1"), ("b", Node.scalar "2")]
      [("b", Node.scalar "2"), ("a", Node.scalar "1")]
      (List.Perm.swap ("b", Node.scalar "2") ("a", Node.scalar "1") [])

theorem fieldOkB_spec (f : RField) (h : fieldOkB f = true) :
    ValidDotPath f.fname = true ∧
      ((tagHead f.xtag == "") = true ∨ (tagHead f.xtag == "-") = true ∨
        ValidDotPath (tagHead f.xtag) = true) := by
  simp only [fieldOkB, Bool.and_eq_true, Bool.or_eq_true] at h
  tauto

theorem fieldKeyM_valid (f : RField) (h : fieldOkB f = true)
    (hne : (tagHead f.xtag == "-") = false) : ValidDotPath (fieldKeyM f) = true := by
  rcases fieldOkB_spec f h with ⟨hname, htag⟩
  have hbase : ValidDotPath (if tagHead f.xtag == "" then f.fname else tagHead f.xtag) = true := by
    by_cases h0 : (tagHead f.xtag == "") = true
    · simpa [h0] using hname
    · rcases htag with h1 | h1 | h1
      · exact absurd h1 h0
      · rw [h1] at hne; cases hne
      · simpa [h0] using h1
  unfold fieldKeyM
  by_cases ha : hasOpt f.xtag "attr" = true
  · simpa [ha] using valid_dash _ hbase
  · simpa [ha] using hbase

theorem foldl_invariant {α : Type} (g : List String → α → List String) (P : α → Prop)
    (h : ∀ (s' : List String) (a : α), P a → (∀ e ∈ s', ValidDotPath e = true) →
      ∀ e ∈ g s' a, ValidDotPath e = true) :
    ∀ (l : List α), (∀ a ∈ l, P a) → ∀ (s' : List String),
      (∀ e ∈ s', ValidDotPath e = true) → ∀ e ∈ l.foldl g s', ValidDotPath e = true := by
  intro l
  induction l with
  | nil =>
    intro _ s' hs' e he
    rw [List.foldl_nil] at he
    exact hs' e he
  | cons a t ih =>
    intro hP s' hs' e he
    rw [List.foldl_cons] at he
    exact ih (fun x hx => hP x (List.mem_cons_of_mem a hx)) (g s' a)
      (h s' a (hP a (List.mem_cons_self a t)) hs') e he

/-- Every entry the unknown-seeking walker appends is a valid dot-path,
provided the document keys and the schema names in reach are valid and the
current path is valid (or empty with the walk standing at a mapping checked
against a struct). -/
theorem validU (st : List String) :
    ∀ (d : Nat) (mv : Node) (typ : RType) (s : List String) (key : String),
      DocOKF d mv = true → SchemaOKF d typ = true →
      (ValidDotPath key = true ∨
        (key = "" ∧ mv.isObj = true ∧ isStrctB (derefOnce typ) = true)) →
      (∀ e ∈ s, ValidDotPath e = true) →
      ∀ e ∈ checkAllTagsF st d mv typ s key, ValidDotPath e = true := by
  intro d
  induction d with
  | zero =>
    intro mv typ s key _ _ _ hs e he
    simp only [checkAllTagsF] at he
    exact hs e he
  | succ d ih =>
    intro mv typ s key hdoc hsch hkey hs e he
    rcases htyp : derefOnce typ with p | _ | t0 | t | ⟨n, flds⟩
    · simp only [checkAllTagsF, htyp] at he
      exact hs e he
    · simp only [checkAllTagsF, htyp] at he
      exact hs e he
    · have hkeyv : ValidDotPath key = true := by
        rcases hkey with h | ⟨_, _, hstr⟩
        · exact h
        · rw [htyp] at hstr
          simp [isStrctB] at hstr
      have hsch' : SchemaOKF d (RType.ptr (derefOnce t0)) = true := by
        have := hsch
        simp only [SchemaOKF, htyp] at this
        exact this
      simp only [checkAllTagsF, htyp] at he
      cases mv with
      | null =>
        rcases List.mem_append.mp he with h | h
        · exact hs e h
        · simp only [List.mem_singleton] at h
          subst h
          exact hkeyv
      | scalar v =>
        rcases List.mem_append.mp he with h | h
        · exact hs e h
        · simp only [List.mem_singleton] at h
          subst h
          exact hkeyv
      | obj mm =>
        rcases List.mem_append.mp he with h | h
        · exact hs e h
        · simp only [List.mem_singleton] at h
          subst h
          exact hkeyv
      | arr l =>
        have helems : ∀ x ∈ l, DocOKF d x = true := by
          simpa [DocOKF, List.all_eq_true] using hdoc
        refine foldl_invariant _ (fun x => DocOKF d x = true) ?_ l helems s hs e he
        intro s' a hPa hs'
        exact ih a (RType.ptr (derefOnce t0)) s' key hPa hsch' (Or.inl hkeyv) hs'
    · simp only [checkAllTagsF, htyp] at he
      exact hs e he
    · have hsch' := hsch
      simp only [SchemaOKF, htyp, Bool.and_eq_true] at hsch'
      rcases hsch' with ⟨hn, hall⟩
      cases mv with
      | null =>
        have hkeyv : ValidDotPath key = true := by
          rcases hkey with h | ⟨_, hobj, _⟩
          · exact h
          · simp [Node.isObj] at hobj
        simp only [checkAllTagsF, htyp] at he
        rcases List.mem_append.mp he with h | h
        · exact hs e h
        · simp only [List.mem_singleton] at h
          subst h
          exact hkeyv
      | scalar v =>
        have hkeyv : ValidDotPath key = true := by
          rcases hkey with h | ⟨_, hobj, _⟩
          · exact h
          · simp [Node.isObj] at hobj
        simp only [checkAllTagsF, htyp] at he
        rcases List.mem_append.mp he with h | h
        · exact hs e h
        · simp only [List.mem_singleton] at h
          subst h
          exact hkeyv
      | arr l =>
        have hkeyv : ValidDotPath key = true := by
          rcases hkey with h | ⟨_, hobj, _⟩
          · exact h
          · simp [Node.isObj] at hobj
        simp only [checkAllTagsF, htyp] at he
        rcases List.mem_append.mp he with h | h
        · exact hs e h
        · simp only [List.mem_singleton] at h
          subst h
          exact hkeyv
      | obj mm =>
        have hmm : ∀ kv ∈ mm, ValidDotPath kv.fst = true ∧ DocOKF d kv.snd = true := by
          have := hdoc
          simp only [DocOKF, List.all_eq_true, Bool.and_eq_true] at this
          exact this
        simp only [checkAllTagsF, htyp] at he
        refine foldl_invariant _
          (fun kv => ValidDotPath kv.fst = true ∧ DocOKF d kv.snd = true) ?_ mm hmm s hs e he
        intro s' kv hPkv hs' e' he'
        have htkey : ValidDotPath (if key == "" then kv.fst else key ++ "." ++ kv.fst) = true := by
          by_cases hk : (key == "") = true
          · simpa [hk] using hPkv.1
          · have hkeyv : ValidDotPath key = true := by
              rcases hkey with h | ⟨h0, _, _⟩
              · exact h
              · subst h0
                simp at hk
            simpa [hk] using valid_join key kv.fst hkeyv hPkv.1
        set tk := if key == "" then kv.fst else key ++ "." ++ kv.fst with htkdef
        split at he'
        · exact hs' e' he'
        · cases hres : resolveFieldU flds kv.fst with
          | none =>
            rw [hres] at he'
            simp only at he'
            rcases List.mem_append.mp he' with h | h
            · exact hs' e' h
            · simp only [List.mem_singleton] at h
              subst h
              exact htkey
          | some f =>
            rw [hres] at he'
            simp only at he'
            rcases resolveFieldU_mem flds kv.fst f hres with ⟨hmem, helig⟩
            have hf := List.all_eq_true.mp hall f hmem
            rw [helig] at hf
            simp only [Bool.not_true, Bool.false_or, Bool.and_eq_true] at hf
            exact ih kv.snd f.ftype s' _ hPkv.2 hf.2 (Or.inl htkey) hs' e' he'

/-- Every entry the missing-seeking walker appends is a valid dot-path,
provided the document keys and the schema names in reach are valid and the
current path is valid or empty. -/
theorem validM (sm : List (String × Nat)) (oeOK : Bool) :
    ∀ (d : Nat) (mv : Node) (typ : RType) (s : List String) (cmem : String),
      DocOKF d mv = true → SchemaOKF d typ = true →
      (cmem = "" ∨ ValidDotPath cmem = true) →
      (∀ e ∈ s, ValidDotPath e = true) →
      ∀ e ∈ checkMembersF sm oeOK d mv typ s cmem, ValidDotPath e = true := by
  intro d
  induction d with
  | zero =>
    intro mv typ s cmem _ _ _ hs e he
    simp only [checkMembersF] at he
    exact hs e he
  | succ d ih =>
    intro mv typ s cmem hdoc hsch hcmem hs e he
    rcases htyp : derefOnce typ with p | _ | t0 | t | ⟨n, flds⟩
    · simp only [checkMembersF, htyp] at he
      exact hs e he
    · simp only [checkMembersF, htyp] at he
      exact hs e he
    · have hsch' : SchemaOKF d (RType.ptr (derefOnce t0)) = true := by
        have := hsch
        simp only [SchemaOKF, htyp] at this
        exact this
      simp only [checkMembersF, htyp] at he
      have hinv : ∀ (l' : List Node), (∀ x ∈ l', DocOKF d x = true) →
          ∀ e' ∈ l'.foldl
            (fun acc sl => checkMembersF sm oeOK d sl (RType.ptr (derefOnce t0)) acc cmem) s,
            ValidDotPath e' = true := by
        intro l' hl'
        refine foldl_invariant _ (fun x => DocOKF d x = true) ?_ l' hl' s hs
        intro s' a hPa hs'
        exact ih a (RType.ptr (derefOnce t0)) s' cmem hPa hsch' hcmem hs'
      cases mv with
      | null => exact hinv [Node.null] (by intro x hx; simp at hx; subst hx; exact DocOKF_null d) e he
      | scalar v =>
        refine hinv [Node.scalar v] ?_ e he
        intro x hx
        simp at hx
        subst hx
        exact DocOKF_mono d _ hdoc
      | obj mm =>
        refine hinv [Node.obj mm] ?_ e he
        intro x hx
        simp at hx
        subst hx
        exact DocOKF_mono d _ hdoc
      | arr l =>
        refine hinv l ?_ e he
        intro x hx
        have := hdoc
        simp only [DocOKF, List.all_eq_true] at this
        exact this x hx
    · simp only [checkMembersF, htyp] at he
      exact hs e he
    · have hsch' := hsch
      simp only [SchemaOKF, htyp, Bool.and_eq_true] at hsch'
      rcases hsch' with ⟨hn, hall⟩
      have hmismatch : ValidDotPath (cmem ++ n) = true := by
        rcases hcmem with h0 | hv
        · subst h0
          simpa using hn
        · exact valid_cat cmem n hv hn
      cases mv with
      | null =>
        simp only [checkMembersF, htyp] at he
        rcases List.mem_append.mp he with h | h
        · exact hs e h
        · simp only [List.mem_singleton] at h
          subst h
          exact hmismatch
      | scalar v =>
        simp only [checkMembersF, htyp] at he
        rcases List.mem_append.mp he with h | h
        · exact hs e h
        · simp only [List.mem_singleton] at h
          subst h
          exact hmismatch
      | arr l =>
        simp only [checkMembersF, htyp] at he
        rcases List.mem_append.mp he with h | h
        · exact hs e h
        · simp only [List.mem_singleton] at h
          subst h
          exact hmismatch
      | obj mm =>
        have hmm : ∀ kv ∈ mm, ValidDotPath kv.fst = true ∧ DocOKF d kv.snd = true := by
          have := hdoc
          simp only [DocOKF, List.all_eq_true, Bool.and_eq_true] at this
          exact this
        have hfldfacts : ∀ f ∈ flds,
            eligibleField f = true → fieldOkB f = true ∧ SchemaOKF d f.ftype = true := by
          intro f hf helig
          have := List.all_eq_true.mp hall f hf
          rw [helig] at this
          simpa [Bool.and_eq_true] using this
        simp only [checkMembersF, htyp] at he
        refine foldl_invariant _
          (fun f => f ∈ flds) ?_ flds (fun f hf => hf) s hs e he
        intro s' f hPf hs' e' he'
        split at he'
        · exact hs' e' he'
        · split at he'
          · exact hs' e' he'
          · split at he'
            · exact hs' e' he'
            · rename_i hexp hxml htag
              have helig : eligibleField f = true := by
                simp only [eligibleField, Bool.and_eq_true]
                constructor
                · revert hexp
                  cases f.exported <;> simp
                · revert hxml
                  cases isXmlNameT f.ftype <;> simp
              rcases hfldfacts f hPf helig with ⟨hfok, hsub⟩
              have htagne : (tagHead f.xtag == "-") = false := by
                revert htag
                cases tagHead f.xtag == "-" <;> simp
              have hfn : ValidDotPath (fieldKeyM f) = true := fieldKeyM_valid f hfok htagne
              have hfpath : ValidDotPath
                  (if cmem == "" then fieldKeyM f else cmem ++ "." ++ fieldKeyM f) = true := by
                by_cases hk : (cmem == "") = true
                · simpa [hk] using hfn
                · have hv : ValidDotPath cmem = true := by
                    rcases hcmem with h0 | hv
                    · subst h0
                      simp at hk
                    · exact hv
                  simpa [hk] using valid_join cmem (fieldKeyM f) hv hfn
              set fp := if cmem == "" then fieldKeyM f else cmem ++ "." ++ fieldKeyM f
                with hfpdef
              have hdocv : DocOKF d ((mapFind mm (fieldKeyM f)).getD Node.null) = true := by
                cases hfind : mapFind mm (fieldKeyM f) with
                | none => simpa [hfind] using DocOKF_null d
                | some w =>
                  have := (hmm (fieldKeyM f, w) (mapFind_mem mm (fieldKeyM f) w hfind)).2
                  simpa [hfind] using this
              have hacc1 : ∀ e2 ∈ (if ((mapFind mm (fieldKeyM f)).isNone
                    && (!hasOpt f.xtag "omitempty" || !oeOK)) = true
                  then s' ++ [fp] else s'), ValidDotPath e2 = true := by
                intro e2 he2
                split at he2
                · rcases List.mem_append.mp he2 with h | h
                  · exact hs' e2 h
                  · simp only [List.mem_singleton] at h
                    subst h
                    exact hfpath
                · exact hs' e2 he2
              split at he'
              all_goals
                split at he'
                · exact hs' e' he'
                · exact ih _ f.ftype _ fp hdocv hsub (Or.inr hfpath) hacc1 e' he'

/-- C4 amended: when the document root value is a mapping, the schema's
declared type dereferences to a struct, every document key is a valid
dot-path, and every struct name, field name and explicit tag first-segment
in the schema is a valid dot-path, then every entry placed in the result
sequence by `UnknownXMLTags` and by `MissingXMLTags` is a syntactically
valid dot-path: non-empty, with no empty segments.  (The resolvability half
of the original claim is dropped: missing-direction entries address nodes
that are absent from the document by construction, and shape-mismatch
entries concatenate the struct type name without a separator.) -/
theorem c4_valid_paths (st : List String) (sm : List (String × Nat)) (oeOK : Bool)
    (root : String) (v : Node) (valT : RType)
    (hobj : v.isObj = true) (hstr : isStrctB (derefOnce valT) = true)
    (hdoc : DocOKF (FUEL valT) v = true) (hsch : SchemaOKF (FUEL valT) valT = true) :
    (∀ e ∈ (UnknownXMLTags st [(root, v)] valT).1, ValidDotPath e = true) ∧
      (∀ e ∈ (MissingXMLTags sm oeOK [(root, v)] valT).1, ValidDotPath e = true) := by
  cases v with
  | null => simp [Node.isObj] at hobj
  | scalar w => simp [Node.isObj] at hobj
  | arr l => simp [Node.isObj] at hobj
  | obj mm =>
    constructor
    · intro e he
      simp only [UnknownXMLTags, List.headD, checkAllTags] at he
      exact validU st (FUEL valT) (Node.obj mm) valT [] "" hdoc hsch
        (Or.inr ⟨rfl, rfl, hstr⟩) (by intro x hx; cases hx) e he
    · intro e he
      simp only [MissingXMLTags, List.headD, checkMembers] at he
      exact validM sm oeOK (FUEL valT) (Node.obj mm) valT [] "" hdoc hsch
        (Or.inl rfl) (by intro x hx; cases hx) e he

/-- Witness for C4 at a concrete input: the attribute path `"Why.-attr"`
reported unknown for the first test document, and the missing entry `"e2"`
for the doc-comment example, are valid dot-paths by the theorem. -/
theorem c4_valid_paths_witness :
    ValidDotPath "Why.-attr" = true ∧ ValidDotPath "e2" = true := by
  constructor
  · have h := c4_valid_paths [] [] true "Doc"
      (Node.obj [("Ok", Node.scalar "true"),
        ("Why", Node.obj [("-attr", Node.scalar "some val"),
          ("Maybe", Node.scalar "true"), ("maybenot", Node.scalar "false")]),
        ("not", Node.scalar "I dont know")])
      (RType.strct "test"
        [RField.mk "XMLName" "Doc" true RType.xmlName,
         RField.mk "Ok" "" true (RType.prim "bool"),
         RField.mk "Why" "" true
           (RType.strct "test2" [RField.mk "Maybe" "" true (RType.prim "bool")])])
      (by decide) (by decide) (by decide) (by decide)
    exact h.1 "Why.-attr" (by decide)
  · have h := c4_valid_paths [] [] true "doc"
      (Node.obj [("e1", Node.scalar "test")]) docTwoFieldT
      (by decide) (by decide) (by decide) (by decide)
    exact h.2 "e2" (by decide)

end Checkxml
